import Mathlib

set_option maxRecDepth 100000

/-!
# Verification of the pngme chunk model

Shallow embedding of the repository's core data model:
`ChunkType` (src/chunk_type.rs), `Chunk` with CRC-32/ISO-HDLC
(src/chunk.rs), the encode workflow (src/commands.rs), and a
spec-modelled `Png` container (png.rs is not present in src/).

Bytes are modelled as `Nat` values; `u8`/`u32` arithmetic is made
explicit with `% 256` / `% 2^32` where the source casts.
-/

/-! ## ChunkType — src/chunk_type.rs -/

/-- `ChunkType { chunk: [u8; 4] }`: the 4 raw type bytes. -/
structure ChunkType where
  chunk : List Nat
deriving DecidableEq, Repr

/-- `ChunkType::bytes`. -/
def ChunkType.bytes (c : ChunkType) : List Nat := c.chunk

/-- `ChunkType::check_valid`: counts the bytes in `A..Z` or `a..z`
and compares the count with 4. -/
def ChunkType.check_valid (chunks : List Nat) : Bool :=
  (chunks.filter (fun i => decide ((65 ≤ i ∧ i ≤ 90) ∨ (97 ≤ i ∧ i ≤ 122)))).length == 4

/-- `ChunkType::is_critical`: bit 5 of byte 0 is 0. -/
def ChunkType.is_critical (c : ChunkType) : Bool :=
  (c.chunk.getD 0 0) >>> 5 &&& 1 == 0

/-- `ChunkType::is_public`: bit 5 of byte 1 is 0. -/
def ChunkType.is_public (c : ChunkType) : Bool :=
  (c.chunk.getD 1 0) >>> 5 &&& 1 == 0

/-- `ChunkType::is_reserved_bit_valid`: bit 5 of byte 2 is 0. -/
def ChunkType.is_reserved_bit_valid (c : ChunkType) : Bool :=
  (c.chunk.getD 2 0) >>> 5 &&& 1 == 0

/-- `ChunkType::is_safe_to_copy`: bit 5 of byte 3 is 1. -/
def ChunkType.is_safe_to_copy (c : ChunkType) : Bool :=
  (c.chunk.getD 3 0) >>> 5 &&& 1 == 1

/-- `ChunkType::is_valid`. -/
def ChunkType.is_valid (c : ChunkType) : Bool :=
  c.is_reserved_bit_valid && ChunkType.check_valid c.chunk

/-- `impl TryFrom<[u8; 4]> for ChunkType`. -/
def ChunkType.try_from (value : List Nat) : Except String ChunkType :=
  if ChunkType.check_valid value then Except.ok ⟨value⟩
  else Except.error "incorrect chunk type"

/-- `impl FromStr for ChunkType`: `s.as_bytes().read(&mut [0u8; 4])`
copies `min (s.len()) 4` bytes and returns that count; the code fails
when the count is not 4, then delegates to `try_from` on the copied
4 bytes. -/
def ChunkType.from_str (s : List Nat) : Except String ChunkType :=
  if min s.length 4 != 4 then Except.error "len not equal 4"
  else ChunkType.try_from (s.take 4)

/-! ## CRC-32 (ISO-HDLC), as computed by the `crc` crate for
`CRC_32_ISO_HDLC`: reflected polynomial `0xEDB88320`, initial value
`0xFFFFFFFF`, final xor `0xFFFFFFFF`. -/

/-- The reflected CRC-32 polynomial. -/
def CRC32_POLY : Nat := 0xEDB88320

/-- One bit-step of the reflected CRC-32 update. -/
def crcStep (r : Nat) : Nat :=
  if r % 2 == 1 then (r / 2) ^^^ CRC32_POLY else r / 2

/-- `n` iterated bit-steps. -/
def crcSteps : Nat → Nat → Nat
  | 0, r => r
  | n + 1, r => crcSteps n (crcStep r)

/-- Absorb one byte into the CRC state: xor it in, then 8 bit-steps. -/
def crcByte (r b : Nat) : Nat := crcSteps 8 (r ^^^ b)

/-! ## Chunk — src/chunk.rs -/

/-- `Chunk { chunk_type: ChunkType, data: Vec<u8> }`. -/
structure Chunk where
  chunk_type : ChunkType
  data : List Nat
deriving DecidableEq, Repr

/-- `Chunk::checksum`: CRC-32/ISO-HDLC over the byte sequence. -/
def Chunk.checksum (bytes : List Nat) : Nat :=
  (bytes.foldl crcByte 0xFFFFFFFF) ^^^ 0xFFFFFFFF

/-- `Chunk::new`. -/
def Chunk.new (chunk_type : ChunkType) (data : List Nat) : Chunk :=
  ⟨chunk_type, data⟩

/-- `Chunk::length`: payload byte count (a `usize` in the source). -/
def Chunk.length (c : Chunk) : Nat := c.data.length

/-- `Chunk::crc`: checksum over type bytes followed by the payload. -/
def Chunk.crc (c : Chunk) : Nat :=
  Chunk.checksum (c.chunk_type.bytes ++ c.data)

/-- `u32::to_be_bytes` for a value already reduced below `2^32`. -/
def toBE32 (n : Nat) : List Nat :=
  [n / 2 ^ 24 % 256, n / 2 ^ 16 % 256, n / 2 ^ 8 % 256, n % 256]

/-- `u32::from_be_bytes` on a 4-byte buffer. -/
def fromBE32 (l : List Nat) : Nat :=
  (l.getD 0 0) * 2 ^ 24 + (l.getD 1 0) * 2 ^ 16 + (l.getD 2 0) * 2 ^ 8 + l.getD 3 0

/-- `Chunk::as_bytes`: big-endian length (`self.length() as u32`, a
truncating cast, hence `% 2^32`), type bytes, payload, big-endian CRC. -/
def Chunk.as_bytes (c : Chunk) : List Nat :=
  toBE32 (c.length % 2 ^ 32) ++ c.chunk_type.bytes ++ c.data ++ toBE32 c.crc

/-- `impl TryFrom<&[u8]> for Chunk`: reads the 4-byte big-endian length,
checks that `length + 8` bytes remain, reads 4 type bytes, `length`
payload bytes and the 4-byte stored CRC, recomputes the CRC over
type ++ payload, and fails on mismatch.  Trailing bytes are ignored. -/
def Chunk.try_from (value : List Nat) : Except String Chunk :=
  if value.length < 4 then Except.error "incorrect chunk data"
  else
    let length := fromBE32 (value.take 4)
    let v1 := value.drop 4
    if v1.length < length + 4 + 4 then Except.error "incorrect chunk data"
    else
      let chunk := v1.take 4
      let v2 := v1.drop 4
      match ChunkType.try_from chunk with
      | Except.error e => Except.error e
      | Except.ok chunk_type =>
        let data := v2.take length
        let v3 := v2.drop length
        let raw_crc := fromBE32 (v3.take 4)
        let crc := Chunk.checksum (chunk ++ data)
        if crc != raw_crc then Except.error "error"
        else Except.ok ⟨chunk_type, data⟩

/-! ## Png container and encode workflow -/

/-- Modelled from the spec: `png.rs` is referenced by `main.rs` but is
not among the provided source files.  Per spec §3/§4.3 the container
owns the 8-byte signature plus an ordered sequence of chunk records;
only the chunk sequence is modelled here since the modelled operations
(`chunk_by_type`, `remove_chunk`, `append_chunk`) never touch the
signature. -/
structure Png where
  chunks : List Chunk
deriving DecidableEq, Repr

/-- Modelled from the spec: `chunkByType` is a linear scan returning
the first chunk whose type bytes equal the given type text's bytes. -/
def Png.chunk_by_type (p : Png) (t : List Nat) : Option Chunk :=
  p.chunks.find? (fun c => c.chunk_type.chunk == t)

/-- Removes the first chunk whose type bytes equal `t`. -/
def removeFirstChunk : List Chunk → List Nat → List Chunk
  | [], _ => []
  | c :: cs, t => if c.chunk_type.chunk == t then cs else c :: removeFirstChunk cs t

/-- Modelled from the spec: `removeChunk` removes the first matching
record (the source also returns it; the encode workflow ignores that
return value, so only the resulting container is modelled). -/
def Png.remove_chunk (p : Png) (t : List Nat) : Png :=
  ⟨removeFirstChunk p.chunks t⟩

/-- Modelled from the spec: `appendChunk` inserts at the end. -/
def Png.append_chunk (p : Png) (c : Chunk) : Png :=
  ⟨p.chunks ++ [c]⟩

/-- `Commands::encode` (src/commands.rs), with the file I/O boundary
stripped: remove an existing chunk of the target type if present,
convert the type string to `[u8; 4]` (fails unless exactly 4 bytes),
validate it, build the new chunk from the message bytes, append. -/
def Commands.encode (png : Png) (chunk_type : List Nat) (message : List Nat) :
    Except String Png :=
  let png1 := if (png.chunk_by_type chunk_type).isSome
              then png.remove_chunk chunk_type else png
  if chunk_type.length == 4 then
    match ChunkType.try_from chunk_type with
    | Except.error e => Except.error e
    | Except.ok ct => Except.ok (png1.append_chunk (Chunk.new ct message))
  else Except.error "could not convert slice to array"

/-! ## Concrete fixture from the repository's tests -/

/-- The bytes of `"RuSt"`. -/
def rustTypeBytes : List Nat := [82, 117, 83, 116]

/-- The bytes of `"This is where your secret message will be!"`. -/
def fixtureMessage : List Nat :=
  [84, 104, 105, 115, 32, 105, 115, 32, 119, 104, 101, 114, 101, 32,
   121, 111, 117, 114, 32, 115, 101, 99, 114, 101, 116, 32, 109, 101,
   115, 115, 97, 103, 101, 32, 119, 105, 108, 108, 32, 98, 101, 33]

/-- The canonical fixture chunk. -/
def fixtureChunk : Chunk := Chunk.new ⟨rustTypeBytes⟩ fixtureMessage

/-- `Result::is_ok`, for the embedded `Except`-valued operations. -/
def exceptIsOk {ε α : Type _} : Except ε α → Bool
  | Except.ok _ => true
  | Except.error _ => false

/-- The bytes of `"Rust"` — all letters, but the reserved bit (byte 2)
is lowercase, so the type is not `is_valid`. -/
def rustLowerBytes : List Nat := [82, 117, 115, 116]

/-- A payload of `2^32` zero bytes: its length overflows the `u32`
length field of the wire record. -/
def bigPayload : List Nat := List.replicate (2 ^ 32) 0

/-- A container holding two chunks of the same type `"RuSt"`. -/
def dupPng : Png := ⟨[Chunk.new ⟨rustTypeBytes⟩ [1], Chunk.new ⟨rustTypeBytes⟩ [2]]⟩

/-! ## Helper lemmas -/

theorem toBE32_length (n : Nat) : (toBE32 n).length = 4 := rfl

theorem fromBE32_toBE32 {n : Nat} (h : n < 2 ^ 32) : fromBE32 (toBE32 n) = n := by
  simp [toBE32, fromBE32]
  omega

theorem check_valid_eq_true_iff {bs : List Nat} (h4 : bs.length = 4) :
    ChunkType.check_valid bs = true ↔
      ∀ b ∈ bs, (65 ≤ b ∧ b ≤ 90) ∨ (97 ≤ b ∧ b ≤ 122) := by
  unfold ChunkType.check_valid
  rw [beq_iff_eq, ← h4, List.filter_length_eq_length]
  simp

theorem letters_lt_256 {bs : List Nat}
    (h : ∀ b ∈ bs, (65 ≤ b ∧ b ≤ 90) ∨ (97 ≤ b ∧ b ≤ 122)) :
    ∀ b ∈ bs, b < 256 := by
  intro b hb
  rcases h b hb with ⟨_, h2⟩ | ⟨_, h2⟩ <;> omega

theorem crcStep_lt_two_pow {r : Nat} (h : r < 2 ^ 32) : crcStep r < 2 ^ 32 := by
  unfold crcStep
  split
  · exact Nat.xor_lt_two_pow (by omega) (by decide)
  · omega

theorem crcSteps_lt_two_pow (n : Nat) {r : Nat} (h : r < 2 ^ 32) :
    crcSteps n r < 2 ^ 32 := by
  induction n generalizing r with
  | zero => exact h
  | succ k ih => exact ih (crcStep_lt_two_pow h)

theorem crcByte_lt_two_pow {r b : Nat} (hr : r < 2 ^ 32) (hb : b < 256) :
    crcByte r b < 2 ^ 32 :=
  crcSteps_lt_two_pow 8 (Nat.xor_lt_two_pow hr (by omega))

theorem foldl_crcByte_lt_two_pow {l : List Nat} {r : Nat} (hr : r < 2 ^ 32)
    (hl : ∀ b ∈ l, b < 256) : l.foldl crcByte r < 2 ^ 32 := by
  induction l generalizing r with
  | nil => exact hr
  | cons b bs ih =>
    exact ih (crcByte_lt_two_pow hr (hl b (by simp))) (fun x hx => hl x (by simp [hx]))

theorem checksum_lt_two_pow {l : List Nat} (hl : ∀ b ∈ l, b < 256) :
    Chunk.checksum l < 2 ^ 32 :=
  Nat.xor_lt_two_pow (foldl_crcByte_lt_two_pow (by decide) hl) (by decide)

theorem checksum_rust : Chunk.checksum rustTypeBytes = 3565422908 := by
  simp [Chunk.checksum, crcByte, crcSteps, crcStep, CRC32_POLY, List.foldl, rustTypeBytes]

/-! ## Claim theorems -/

/-- C4, counterexample: the canonical fixture payload
`"This is where your secret message will be!"` is 42 bytes long, not
44 as the spec's concrete scenario states. -/
theorem c4_payload_length_counterexample :
    Chunk.length fixtureChunk = 42 ∧ Chunk.length fixtureChunk ≠ 44 := by decide

/-- C4, amended: the record built from type `"RuSt"` and the canonical
payload has payload length 42 (not 44) and CRC-32 (ISO-HDLC, over the
4 type bytes followed by the payload) 2882656334. -/
theorem c4_fixture_length_and_crc :
    Chunk.length fixtureChunk = 42 ∧ Chunk.crc fixtureChunk = 2882656334 := by
  refine ⟨by decide, ?_⟩
  simp [Chunk.crc, Chunk.checksum, crcByte, crcSteps, crcStep, CRC32_POLY, List.foldl,
    fixtureChunk, Chunk.new, ChunkType.bytes, rustTypeBytes, fixtureMessage]

/-- C2, counterexample: a 5-byte input is accepted by `from_str`
(which reads only the first 4 bytes), while the claim requires every
input whose byte length is not exactly 4 to fail. -/
theorem c2_from_str_long_counterexample :
    ChunkType.from_str [82, 117, 83, 116, 97] = Except.ok ⟨[82, 117, 83, 116]⟩ ∧
    [82, 117, 83, 116, 97].length ≠ 4 :=
  ⟨by rfl, by decide⟩

/-- C2, amended: `from_str` fails with the length error exactly when
the input is shorter than 4 bytes; for 4 or more bytes it returns the
result of `try_from` on the first 4 bytes (so a 4-byte input behaves
exactly like `try_from` on those bytes). -/
theorem c2_from_str_first_four (s : List Nat) :
    ChunkType.from_str s =
      if 4 ≤ s.length then ChunkType.try_from (s.take 4)
      else Except.error "len not equal 4" := by
  unfold ChunkType.from_str
  by_cases h : 4 ≤ s.length
  · have hm : min s.length 4 = 4 := by omega
    simp [hm, h]
  · have hm : min s.length 4 = s.length := by omega
    have hne : s.length ≠ 4 := by omega
    simp [hm, h, hne]

/-- C5: `Chunk::try_from` fails with the truncation error
`"incorrect chunk data"` when the input holds fewer than 4 bytes, or
when fewer than `L + 8` bytes remain after the big-endian 4-byte
length `L`. -/
theorem c5_truncation (v : List Nat)
    (h : v.length < 4 ∨ (v.drop 4).length < fromBE32 (v.take 4) + 4 + 4) :
    Chunk.try_from v = Except.error "incorrect chunk data" := by
  unfold Chunk.try_from
  by_cases h4 : v.length < 4
  · simp [h4]
  · have h8 := h.resolve_left h4
    rw [List.length_drop] at h8
    simp [h4, h8]

/-- C5, witness: the empty buffer is truncated. -/
theorem c5_truncation_witness :
    ([] : List Nat).length < 4 ∧
    Chunk.try_from [] = Except.error "incorrect chunk data" :=
  ⟨by decide, c5_truncation [] (Or.inl (by decide))⟩

theorem as_bytes_eq (c : Chunk) :
    Chunk.as_bytes c =
      toBE32 (c.data.length % 2 ^ 32) ++
        (c.chunk_type.chunk ++ (c.data ++ toBE32 (Chunk.crc c))) := by
  unfold Chunk.as_bytes Chunk.length ChunkType.bytes
  simp [List.append_assoc]

/-- C3: `ChunkType::try_from` on a 4-byte array succeeds iff all four
bytes are ASCII letters, and for a successfully constructed type the
reserved bit is valid iff byte index 2 is uppercase (bit 5 zero). -/
theorem c3_from_bytes_validity (bs : List Nat) (h4 : bs.length = 4)
    (hu8 : ∀ b ∈ bs, b < 256) :
    (exceptIsOk (ChunkType.try_from bs) = true ↔
      ∀ b ∈ bs, (65 ≤ b ∧ b ≤ 90) ∨ (97 ≤ b ∧ b ≤ 122)) ∧
    (exceptIsOk (ChunkType.try_from bs) = true →
      ((ChunkType.mk bs).is_reserved_bit_valid = true ↔
        (65 ≤ bs.getD 2 0 ∧ bs.getD 2 0 ≤ 90))) := by
  have hiff := check_valid_eq_true_iff h4
  have hok : exceptIsOk (ChunkType.try_from bs) = ChunkType.check_valid bs := by
    unfold ChunkType.try_from
    by_cases hv : ChunkType.check_valid bs <;> simp [hv, exceptIsOk]
  rw [hok]
  refine ⟨hiff, fun hv => ?_⟩
  have hall := hiff.mp hv
  have hb2 : (65 ≤ bs.getD 2 0 ∧ bs.getD 2 0 ≤ 90) ∨
      (97 ≤ bs.getD 2 0 ∧ bs.getD 2 0 ≤ 122) := by
    apply hall
    rcases bs with _ | ⟨a, _ | ⟨b, _ | ⟨c, _ | ⟨d, rest⟩⟩⟩⟩ <;> simp_all
  unfold ChunkType.is_reserved_bit_valid
  rw [Nat.shiftRight_eq_div_pow, Nat.and_one_is_mod]
  have h32 : (2 : Nat) ^ 5 = 32 := by norm_num
  rw [h32]
  simp only [beq_iff_eq]
  omega

/-- C3, witness: the bytes of `"RuSt"`. -/
theorem c3_from_bytes_validity_witness :
    (exceptIsOk (ChunkType.try_from [82, 117, 83, 116]) = true ↔
      ∀ b ∈ [82, 117, 83, 116], (65 ≤ b ∧ b ≤ 90) ∨ (97 ≤ b ∧ b ≤ 122)) ∧
    (exceptIsOk (ChunkType.try_from [82, 117, 83, 116]) = true →
      ((ChunkType.mk [82, 117, 83, 116]).is_reserved_bit_valid = true ↔
        (65 ≤ [82, 117, 83, 116].getD 2 0 ∧ [82, 117, 83, 116].getD 2 0 ≤ 90))) :=
  c3_from_bytes_validity [82, 117, 83, 116] (by decide) (by decide)

/-- C9: the serialized length field is the payload length reduced
mod `2^32`, so for payloads of `2^32` bytes or more the declared
length disagrees with the actual payload length. -/
theorem c9_length_field_truncates (c : Chunk) (h : 2 ^ 32 ≤ c.data.length) :
    (Chunk.as_bytes c).take 4 = toBE32 (c.data.length % 2 ^ 32) ∧
    fromBE32 ((Chunk.as_bytes c).take 4) ≠ c.data.length := by
  have htake : (Chunk.as_bytes c).take 4 = toBE32 (c.data.length % 2 ^ 32) := by
    rw [as_bytes_eq, List.take_left' (toBE32_length _)]
  refine ⟨htake, ?_⟩
  rw [htake, fromBE32_toBE32 (Nat.mod_lt _ (by norm_num))]
  have := @Nat.mod_lt c.data.length (2 ^ 32) (by norm_num)
  omega

/-- C9, witness: a payload of `2^32` zero bytes. -/
theorem c9_length_field_truncates_witness :
    2 ^ 32 ≤ (Chunk.new ⟨rustTypeBytes⟩ bigPayload).data.length ∧
    ((Chunk.as_bytes (Chunk.new ⟨rustTypeBytes⟩ bigPayload)).take 4 =
        toBE32 ((Chunk.new ⟨rustTypeBytes⟩ bigPayload).data.length % 2 ^ 32) ∧
      fromBE32 ((Chunk.as_bytes (Chunk.new ⟨rustTypeBytes⟩ bigPayload)).take 4) ≠
        (Chunk.new ⟨rustTypeBytes⟩ bigPayload).data.length) := by
  have h : 2 ^ 32 ≤ (Chunk.new ⟨rustTypeBytes⟩ bigPayload).data.length := by
    show 2 ^ 32 ≤ (List.replicate (2 ^ 32) 0).length
    rw [List.length_replicate]
  exact ⟨h, c9_length_field_truncates (Chunk.new ⟨rustTypeBytes⟩ bigPayload) h⟩

/-- C10: the encode workflow never consults `is_valid`: any 4-letter
type whose reserved bit is invalid (byte 2 lowercase) is accepted, the
chunk is created and appended at the end of the container. -/
theorem c10_encode_ignores_is_valid (t : List Nat) (png : Png) (message : List Nat)
    (h4 : t.length = 4) (hv : ChunkType.check_valid t = true)
    (hres : ChunkType.is_reserved_bit_valid ⟨t⟩ = false) :
    (Commands.encode png t message).toOption.map (fun p => p.chunks.getLast?) =
      some (some (Chunk.new ⟨t⟩ message)) ∧
    ChunkType.is_valid ⟨t⟩ = false := by
  constructor
  · have hbeq : (t.length == 4) = true := by simp [h4]
    simp [Commands.encode, hbeq, ChunkType.try_from, hv, Png.append_chunk,
      Except.toOption, List.getLast?_concat]
  · unfold ChunkType.is_valid
    rw [hres]
    simp

/-- C10, witness: the type `"Rust"` (lowercase reserved byte). -/
theorem c10_encode_ignores_is_valid_witness :
    rustLowerBytes.length = 4 ∧ ChunkType.check_valid rustLowerBytes = true ∧
    ChunkType.is_reserved_bit_valid ⟨rustLowerBytes⟩ = false ∧
    ((Commands.encode ⟨[]⟩ rustLowerBytes [104, 105]).toOption.map
        (fun p => p.chunks.getLast?) =
        some (some (Chunk.new ⟨rustLowerBytes⟩ [104, 105])) ∧
      ChunkType.is_valid ⟨rustLowerBytes⟩ = false) :=
  ⟨by decide, by decide, by decide,
    c10_encode_ignores_is_valid rustLowerBytes ⟨[]⟩ [104, 105]
      (by decide) (by decide) (by decide)⟩

theorem filter_removeFirstChunk (l : List Chunk) (t : List Nat)
    (h : (l.filter (fun c => c.chunk_type.chunk == t)).length ≤ 1) :
    (removeFirstChunk l t).filter (fun c => c.chunk_type.chunk == t) = [] := by
  induction l with
  | nil => rfl
  | cons c cs ih =>
    cases hb : (c.chunk_type.chunk == t) with
    | true =>
      simp only [List.filter_cons, hb, if_true, List.length_cons] at h
      have hz : (cs.filter (fun x => x.chunk_type.chunk == t)).length = 0 := by omega
      simp only [removeFirstChunk, hb, if_true]
      exact List.length_eq_zero.mp hz
    | false =>
      simp only [List.filter_cons, hb, if_false] at h
      simp only [removeFirstChunk, hb, Bool.false_eq_true, if_false, List.filter_cons]
      exact ih h

/-- C7, counterexample: with two `"RuSt"` chunks already present, the
encode workflow removes only the first match and appends the new
chunk, leaving two chunks of that type — not exactly one. -/
theorem c7_encode_replaces_counterexample :
    (Commands.encode dupPng rustTypeBytes [9]).toOption.map
        (fun p => (p.chunks.filter (fun c => c.chunk_type.chunk == rustTypeBytes)).length) =
      some 2 := by rfl

/-- C7, amended (spec-modelled Png): if the container holds exactly
one chunk of the target (4-letter) type, the encode workflow leaves
exactly one chunk of that type, holding the new message bytes. -/
theorem c7_encode_replaces (png : Png) (t : List Nat) (message : List Nat)
    (h4 : t.length = 4) (hv : ChunkType.check_valid t = true)
    (hone : (png.chunks.filter (fun c => c.chunk_type.chunk == t)).length = 1) :
    (Commands.encode png t message).toOption.map
        (fun p => p.chunks.filter (fun c => c.chunk_type.chunk == t)) =
      some [Chunk.new ⟨t⟩ message] := by
  have hsome : (png.chunk_by_type t).isSome = true := by
    obtain ⟨x, hx⟩ := List.length_eq_one.mp hone
    have hmem : x ∈ png.chunks.filter (fun c => c.chunk_type.chunk == t) := by simp [hx]
    rw [List.mem_filter] at hmem
    unfold Png.chunk_by_type
    rw [List.find?_isSome]
    exact ⟨x, hmem.1, hmem.2⟩
  have hremoved := filter_removeFirstChunk png.chunks t (by omega)
  have hbeq : (t.length == 4) = true := by simp [h4]
  simp [Commands.encode, hsome, hbeq, ChunkType.try_from, hv, Png.remove_chunk,
    Png.append_chunk, Except.toOption, List.filter_append, hremoved, Chunk.new]

/-- C7, witness: a container holding one `"RuSt"` chunk. -/
theorem c7_encode_replaces_witness :
    rustTypeBytes.length = 4 ∧ ChunkType.check_valid rustTypeBytes = true ∧
    ((Png.mk [Chunk.new ⟨rustTypeBytes⟩ [1]]).chunks.filter
        (fun c => c.chunk_type.chunk == rustTypeBytes)).length = 1 ∧
    (Commands.encode (Png.mk [Chunk.new ⟨rustTypeBytes⟩ [1]]) rustTypeBytes [9]).toOption.map
        (fun p => p.chunks.filter (fun c => c.chunk_type.chunk == rustTypeBytes)) =
      some [Chunk.new ⟨rustTypeBytes⟩ [9]] :=
  ⟨by decide, by decide, by decide,
    c7_encode_replaces (Png.mk [Chunk.new ⟨rustTypeBytes⟩ [1]]) rustTypeBytes [9]
      (by decide) (by decide) (by decide)⟩

theorem try_from_as_bytes_append (ct : ChunkType) (data extra : List Nat)
    (h4 : ct.chunk.length = 4) (hv : ChunkType.check_valid ct.chunk = true)
    (hbytes : ∀ b ∈ data, b < 256) (hlen : data.length < 2 ^ 32) :
    Chunk.try_from (Chunk.as_bytes ⟨ct, data⟩ ++ extra) = Except.ok ⟨ct, data⟩ := by
  have hmod : data.length % 4294967296 = data.length := by omega
  have hct256 : ∀ b ∈ ct.chunk, b < 256 := letters_lt_256 ((check_valid_eq_true_iff h4).mp hv)
  have hall : ∀ b ∈ ct.chunk ++ data, b < 256 := by
    intro b hb
    rcases List.mem_append.mp hb with h | h
    · exact hct256 b h
    · exact hbytes b h
  have hcrc_lt : Chunk.crc ⟨ct, data⟩ < 2 ^ 32 := checksum_lt_two_pow hall
  have hctok : ChunkType.try_from ct.chunk = Except.ok ct := by
    unfold ChunkType.try_from
    rw [if_pos hv]
  have hbuf : Chunk.as_bytes ⟨ct, data⟩ ++ extra =
      toBE32 data.length ++
        (ct.chunk ++ (data ++ (toBE32 (Chunk.crc ⟨ct, data⟩) ++ extra))) := by
    rw [as_bytes_eq]
    simp [hmod, List.append_assoc]
  rw [hbuf]
  unfold Chunk.try_from
  rw [List.take_left' (toBE32_length data.length),
    List.drop_left' (toBE32_length data.length), fromBE32_toBE32 hlen]
  rw [if_neg (show ¬ ((toBE32 data.length ++ (ct.chunk ++ (data ++ (toBE32 (Chunk.crc ⟨ct, data⟩) ++ extra)))).length < 4) by
    simp only [List.length_append, toBE32_length]; omega)]
  simp only [List.take_left' h4, List.drop_left' h4, hctok, List.take_left, List.drop_left,
    List.take_left' (toBE32_length (Chunk.crc (⟨ct, data⟩ : Chunk))), fromBE32_toBE32 hcrc_lt]
  rw [if_neg (show ¬ ((ct.chunk ++ (data ++ (toBE32 (Chunk.crc ⟨ct, data⟩) ++ extra))).length < data.length + 4 + 4) by
    simp only [List.length_append, toBE32_length, h4]; omega)]
  have hcrceq : Chunk.crc (⟨ct, data⟩ : Chunk) = Chunk.checksum (ct.chunk ++ data) := rfl
  rw [hcrceq, bne_self_eq_false]
  simp

/-- C1, amended: for every 4-ASCII-letter type and every payload of
fewer than `2^32` bytes, parsing the serialization yields back the
same record (same type bytes, payload and CRC). -/
theorem c1_roundtrip (ct : ChunkType) (data : List Nat)
    (h4 : ct.chunk.length = 4) (hv : ChunkType.check_valid ct.chunk = true)
    (hbytes : ∀ b ∈ data, b < 256) (hlen : data.length < 2 ^ 32) :
    Chunk.try_from (Chunk.as_bytes (Chunk.new ct data)) = Except.ok (Chunk.new ct data) := by
  have h := try_from_as_bytes_append ct data [] h4 hv hbytes hlen
  rw [List.append_nil] at h
  exact h

/-- C1, witness: type `"RuSt"` with a short payload. -/
theorem c1_roundtrip_witness :
    (ChunkType.mk rustTypeBytes).chunk.length = 4 ∧
    ChunkType.check_valid (ChunkType.mk rustTypeBytes).chunk = true ∧
    (∀ b ∈ [1, 2, 3], b < 256) ∧ [1, 2, 3].length < 2 ^ 32 ∧
    Chunk.try_from (Chunk.as_bytes (Chunk.new ⟨rustTypeBytes⟩ [1, 2, 3])) =
      Except.ok (Chunk.new ⟨rustTypeBytes⟩ [1, 2, 3]) :=
  ⟨by decide, by decide, by decide, by decide,
    c1_roundtrip ⟨rustTypeBytes⟩ [1, 2, 3] (by decide) (by decide) (by decide) (by decide)⟩

/-- C8: parsing succeeds on any buffer that extends a valid serialized
record with arbitrary trailing bytes; the trailing bytes are ignored
and the parsed record is unchanged. -/
theorem c8_trailing_bytes_ignored (ct : ChunkType) (data extra : List Nat)
    (h4 : ct.chunk.length = 4) (hv : ChunkType.check_valid ct.chunk = true)
    (hbytes : ∀ b ∈ data, b < 256) (hlen : data.length < 2 ^ 32) :
    Chunk.try_from (Chunk.as_bytes (Chunk.new ct data) ++ extra) =
      Except.ok (Chunk.new ct data) :=
  try_from_as_bytes_append ct data extra h4 hv hbytes hlen

/-- C8, witness: two junk bytes after the record. -/
theorem c8_trailing_bytes_ignored_witness :
    (ChunkType.mk rustTypeBytes).chunk.length = 4 ∧
    ChunkType.check_valid (ChunkType.mk rustTypeBytes).chunk = true ∧
    (∀ b ∈ [5], b < 256) ∧ [5].length < 2 ^ 32 ∧
    Chunk.try_from (Chunk.as_bytes (Chunk.new ⟨rustTypeBytes⟩ [5]) ++ [9, 9]) =
      Except.ok (Chunk.new ⟨rustTypeBytes⟩ [5]) :=
  ⟨by decide, by decide, by decide, by decide,
    c8_trailing_bytes_ignored ⟨rustTypeBytes⟩ [5] [9, 9]
      (by decide) (by decide) (by decide) (by decide)⟩

/-- C1, counterexample: with a payload of `2^32` zero bytes the `u32`
length field wraps to 0, parsing then reads an empty payload and
compares the CRC of the bare type against four zero payload bytes, so
the round trip fails instead of returning the original record. -/
theorem c1_roundtrip_counterexample :
    ChunkType.check_valid rustTypeBytes = true ∧
    Chunk.try_from (Chunk.as_bytes (Chunk.new ⟨rustTypeBytes⟩ bigPayload)) =
      Except.error "error" := by
  refine ⟨by decide, ?_⟩
  have hlen : bigPayload.length = 2 ^ 32 := by
    show (List.replicate (2 ^ 32) 0).length = 2 ^ 32
    rw [List.length_replicate]
  have htake4 : bigPayload.take 4 = [0, 0, 0, 0] := by
    show (List.replicate (2 ^ 32) 0).take 4 = [0, 0, 0, 0]
    rw [List.take_replicate, show min 4 (2 ^ 32) = 4 from by omega]
    rfl
  have hpd : (Chunk.new (ChunkType.mk rustTypeBytes) bigPayload).data = bigPayload := rfl
  have hpc : (Chunk.new (ChunkType.mk rustTypeBytes) bigPayload).chunk_type.chunk =
      rustTypeBytes := rfl
  have hbuf : Chunk.as_bytes (Chunk.new ⟨rustTypeBytes⟩ bigPayload) =
      [0, 0, 0, 0] ++ (rustTypeBytes ++ (bigPayload ++
        toBE32 (Chunk.crc (Chunk.new ⟨rustTypeBytes⟩ bigPayload)))) := by
    rw [as_bytes_eq, hpd, hpc, hlen,
      show (2 : Nat) ^ 32 % 2 ^ 32 = 0 from by omega,
      show toBE32 0 = [0, 0, 0, 0] from rfl]
  rw [hbuf]
  unfold Chunk.try_from
  rw [List.take_left' (show ([0, 0, 0, 0] : List Nat).length = 4 from rfl),
      List.drop_left' (show ([0, 0, 0, 0] : List Nat).length = 4 from rfl),
      show fromBE32 [0, 0, 0, 0] = 0 from rfl]
  have hc1 : ¬(([0, 0, 0, 0] ++ (rustTypeBytes ++ (bigPayload ++
        toBE32 (Chunk.crc (Chunk.new ⟨rustTypeBytes⟩ bigPayload))))).length < 4) := by
    rw [List.length_append, List.length_append, List.length_append, toBE32_length, hlen,
      show rustTypeBytes.length = 4 from rfl,
      show ([0, 0, 0, 0] : List Nat).length = 4 from rfl]
    omega
  rw [if_neg hc1]
  have hctok : ChunkType.try_from rustTypeBytes = Except.ok ⟨rustTypeBytes⟩ := rfl
  simp only [List.take_left' (show rustTypeBytes.length = 4 from rfl),
    List.drop_left' (show rustTypeBytes.length = 4 from rfl),
    hctok, List.take_zero, List.drop_zero]
  have hc2 : ¬((rustTypeBytes ++ (bigPayload ++
      toBE32 (Chunk.crc (Chunk.new ⟨rustTypeBytes⟩ bigPayload)))).length < 0 + 4 + 4) := by
    rw [List.length_append, List.length_append, toBE32_length, hlen,
      show rustTypeBytes.length = 4 from rfl]
    omega
  rw [if_neg hc2]
  have htk : (bigPayload ++ toBE32 (Chunk.crc (Chunk.new ⟨rustTypeBytes⟩ bigPayload))).take 4
      = [0, 0, 0, 0] := by
    rw [List.take_append_of_le_length (by rw [hlen]; omega), htake4]
  rw [htk, show fromBE32 [0, 0, 0, 0] = 0 from rfl, List.append_nil, checksum_rust]
  rfl

theorem crcStep_inj {r1 r2 : Nat} (h1 : r1 < 2 ^ 32) (h2 : r2 < 2 ^ 32)
    (he : crcStep r1 = crcStep r2) : r1 = r2 := by
  unfold crcStep at he
  have hp31 : CRC32_POLY.testBit 31 = true := by decide
  by_cases ho1 : r1 % 2 = 1 <;> by_cases ho2 : r2 % 2 = 1
  · rw [if_pos (by simp [ho1]), if_pos (by simp [ho2])] at he
    have := Nat.xor_left_inj.mp he
    omega
  · rw [if_pos (by simp [ho1]), if_neg (by simp [ho2])] at he
    exfalso
    have hx : ((r1 / 2) ^^^ CRC32_POLY).testBit 31 = true := by
      rw [Nat.testBit_xor, Nat.testBit_lt_two_pow (show r1 / 2 < 2 ^ 31 by omega), hp31]
      rfl
    rw [he] at hx
    rw [Nat.testBit_lt_two_pow (show r2 / 2 < 2 ^ 31 by omega)] at hx
    exact Bool.noConfusion hx
  · rw [if_neg (by simp [ho1]), if_pos (by simp [ho2])] at he
    exfalso
    have hx : ((r2 / 2) ^^^ CRC32_POLY).testBit 31 = true := by
      rw [Nat.testBit_xor, Nat.testBit_lt_two_pow (show r2 / 2 < 2 ^ 31 by omega), hp31]
      rfl
    rw [← he] at hx
    rw [Nat.testBit_lt_two_pow (show r1 / 2 < 2 ^ 31 by omega)] at hx
    exact Bool.noConfusion hx
  · rw [if_neg (by simp [ho1]), if_neg (by simp [ho2])] at he
    omega

theorem crcSteps_inj (n : Nat) {r1 r2 : Nat} (h1 : r1 < 2 ^ 32) (h2 : r2 < 2 ^ 32)
    (he : crcSteps n r1 = crcSteps n r2) : r1 = r2 := by
  induction n generalizing r1 r2 with
  | zero => exact he
  | succ k ih =>
    exact crcStep_inj h1 h2
      (ih (crcStep_lt_two_pow h1) (crcStep_lt_two_pow h2) he)

theorem crcByte_inj_state {b : Nat} (hb : b < 2 ^ 32) {r1 r2 : Nat}
    (h1 : r1 < 2 ^ 32) (h2 : r2 < 2 ^ 32) (he : crcByte r1 b = crcByte r2 b) :
    r1 = r2 := by
  unfold crcByte at he
  have := crcSteps_inj 8 (Nat.xor_lt_two_pow h1 hb) (Nat.xor_lt_two_pow h2 hb) he
  exact Nat.xor_left_inj.mp this

theorem crcByte_ne_byte {r b1 b2 : Nat} (hr : r < 2 ^ 32) (hb1 : b1 < 2 ^ 32)
    (hb2 : b2 < 2 ^ 32) (hne : b1 ≠ b2) : crcByte r b1 ≠ crcByte r b2 := by
  intro he
  unfold crcByte at he
  have := crcSteps_inj 8 (Nat.xor_lt_two_pow hr hb1) (Nat.xor_lt_two_pow hr hb2) he
  exact hne (Nat.xor_right_inj.mp this)

theorem foldl_crcByte_inj (l : List Nat) (hl : ∀ b ∈ l, b < 256) {r1 r2 : Nat}
    (h1 : r1 < 2 ^ 32) (h2 : r2 < 2 ^ 32) (hne : r1 ≠ r2) :
    l.foldl crcByte r1 ≠ l.foldl crcByte r2 := by
  induction l generalizing r1 r2 with
  | nil => exact hne
  | cons b bs ih =>
    have hb : b < 256 := hl b (by simp)
    have hbs : ∀ x ∈ bs, x < 256 := fun x hx => hl x (by simp [hx])
    show bs.foldl crcByte (crcByte r1 b) ≠ bs.foldl crcByte (crcByte r2 b)
    exact ih hbs (crcByte_lt_two_pow h1 hb) (crcByte_lt_two_pow h2 hb)
      (fun he => hne (crcByte_inj_state (by omega) h1 h2 he))

theorem checksum_ne_single_byte (pre suf : List Nat) (b1 b2 : Nat)
    (hpre : ∀ x ∈ pre, x < 256) (hsuf : ∀ x ∈ suf, x < 256)
    (hb1 : b1 < 256) (hb2 : b2 < 256) (hne : b1 ≠ b2) :
    Chunk.checksum (pre ++ b1 :: suf) ≠ Chunk.checksum (pre ++ b2 :: suf) := by
  unfold Chunk.checksum
  intro he
  have he2 : (pre ++ b1 :: suf).foldl crcByte 0xFFFFFFFF =
      (pre ++ b2 :: suf).foldl crcByte 0xFFFFFFFF := Nat.xor_left_inj.mp he
  rw [List.foldl_append, List.foldl_append, List.foldl_cons, List.foldl_cons] at he2
  have hslt : pre.foldl crcByte 0xFFFFFFFF < 2 ^ 32 :=
    foldl_crcByte_lt_two_pow (by decide) hpre
  exact foldl_crcByte_inj suf hsuf (crcByte_lt_two_pow hslt hb1)
    (crcByte_lt_two_pow hslt hb2)
    (crcByte_ne_byte hslt (by omega) (by omega) hne) he2

/-- C6, amended: flipping any single bit (bit `j < 8` of any byte) in
the type or payload region of a serialized record (payload below
`2^32` bytes) makes parsing fail: with the checksum-mismatch error
`"error"` whenever the modified type bytes still pass the
ASCII-letter check (in particular for every payload-region flip), and
with `"incorrect chunk type"` otherwise.  The decomposition
`ct.chunk ++ data = pre ++ b :: suf` ranges over exactly the byte
positions of the type-and-payload region of `as_bytes`. -/
theorem c6_bit_flip_detected (ct : ChunkType) (data pre suf : List Nat) (b j : Nat)
    (h4 : ct.chunk.length = 4) (hv : ChunkType.check_valid ct.chunk = true)
    (hbytes : ∀ x ∈ data, x < 256) (hlen : data.length < 2 ^ 32)
    (hsplit : ct.chunk ++ data = pre ++ b :: suf) (hj : j < 8) :
    Chunk.as_bytes (Chunk.new ct data) =
      toBE32 (data.length % 2 ^ 32) ++
        ((pre ++ b :: suf) ++ toBE32 (Chunk.crc (Chunk.new ct data))) ∧
    b ^^^ 2 ^ j ≠ b ∧
    (∃ e, Chunk.try_from (toBE32 (data.length % 2 ^ 32) ++
        ((pre ++ (b ^^^ 2 ^ j) :: suf) ++ toBE32 (Chunk.crc (Chunk.new ct data)))) =
      Except.error e) ∧
    (ChunkType.check_valid ((pre ++ (b ^^^ 2 ^ j) :: suf).take 4) = true →
      Chunk.try_from (toBE32 (data.length % 2 ^ 32) ++
          ((pre ++ (b ^^^ 2 ^ j) :: suf) ++ toBE32 (Chunk.crc (Chunk.new ct data)))) =
        Except.error "error") := by
  have hmod : data.length % 2 ^ 32 = data.length := Nat.mod_eq_of_lt hlen
  have hct256 : ∀ x ∈ ct.chunk, x < 256 :=
    letters_lt_256 ((check_valid_eq_true_iff h4).mp hv)
  have hall : ∀ x ∈ ct.chunk ++ data, x < 256 := by
    intro x hx
    rcases List.mem_append.mp hx with h | h
    · exact hct256 x h
    · exact hbytes x h
  have hcrc_lt : Chunk.crc (Chunk.new ct data) < 2 ^ 32 := checksum_lt_two_pow hall
  have hmid : ∀ x ∈ pre ++ b :: suf, x < 256 := by
    rw [← hsplit]
    exact hall
  have hpre : ∀ x ∈ pre, x < 256 := fun x hx => hmid x (by simp [hx])
  have hsuf : ∀ x ∈ suf, x < 256 := fun x hx => hmid x (by simp [hx])
  have hb : b < 256 := hmid b (by simp)
  have hb8 : b < 2 ^ 8 := by omega
  have hpow8 : (2 : Nat) ^ j < 2 ^ 8 := Nat.pow_lt_pow_right (by omega) hj
  have hbflt : b ^^^ 2 ^ j < 256 := by
    have := Nat.xor_lt_two_pow hb8 hpow8
    omega
  have hbne : b ^^^ 2 ^ j ≠ b := by
    intro he
    have h0 : b ^^^ 2 ^ j = b ^^^ 0 := by rw [Nat.xor_zero]; exact he
    have h1 : (2 : Nat) ^ j = 0 := Nat.xor_right_inj.mp h0
    have h2 : 0 < (2 : Nat) ^ j := Nat.two_pow_pos j
    omega
  have hmlen : (pre ++ b :: suf).length = 4 + data.length := by
    rw [← hsplit, List.length_append, h4]
  have hmlen' : (pre ++ (b ^^^ 2 ^ j) :: suf).length = 4 + data.length := by
    simp only [List.length_append, List.length_cons] at hmlen ⊢
    omega
  have hassoc : ct.chunk ++ (data ++ toBE32 (Chunk.crc (Chunk.new ct data))) =
      (pre ++ b :: suf) ++ toBE32 (Chunk.crc (Chunk.new ct data)) := by
    rw [← List.append_assoc, hsplit]
  have hserial : Chunk.as_bytes (Chunk.new ct data) =
      toBE32 (data.length % 2 ^ 32) ++
        ((pre ++ b :: suf) ++ toBE32 (Chunk.crc (Chunk.new ct data))) := by
    rw [as_bytes_eq,
      show (Chunk.new ct data).data = data from rfl,
      show (Chunk.new ct data).chunk_type.chunk = ct.chunk from rfl,
      hassoc]
  have key : Chunk.try_from (toBE32 data.length ++
      ((pre ++ (b ^^^ 2 ^ j) :: suf) ++ toBE32 (Chunk.crc (Chunk.new ct data)))) =
      (if ChunkType.check_valid ((pre ++ (b ^^^ 2 ^ j) :: suf).take 4) then
        Except.error "error" else Except.error "incorrect chunk type") := by
    have hc1 : ¬((toBE32 data.length ++
        ((pre ++ (b ^^^ 2 ^ j) :: suf) ++ toBE32 (Chunk.crc (Chunk.new ct data)))).length
          < 4) := by
      rw [List.length_append, toBE32_length]
      omega
    have hc2 : ¬(((pre ++ (b ^^^ 2 ^ j) :: suf) ++
        toBE32 (Chunk.crc (Chunk.new ct data))).length < data.length + 4 + 4) := by
      rw [List.length_append, toBE32_length, hmlen']
      omega
    have htakemid : ((pre ++ (b ^^^ 2 ^ j) :: suf) ++
        toBE32 (Chunk.crc (Chunk.new ct data))).take 4 =
        (pre ++ (b ^^^ 2 ^ j) :: suf).take 4 := by
      rw [List.take_append_of_le_length (by rw [hmlen']; omega)]
    have hdropmid : ((pre ++ (b ^^^ 2 ^ j) :: suf) ++
        toBE32 (Chunk.crc (Chunk.new ct data))).drop 4 =
        (pre ++ (b ^^^ 2 ^ j) :: suf).drop 4 ++
          toBE32 (Chunk.crc (Chunk.new ct data)) := by
      rw [List.drop_append_of_le_length (by rw [hmlen']; omega)]
    have hdroplen : ((pre ++ (b ^^^ 2 ^ j) :: suf).drop 4).length = data.length := by
      rw [List.length_drop, hmlen']
      omega
    unfold Chunk.try_from
    rw [List.take_left' (toBE32_length data.length),
        List.drop_left' (toBE32_length data.length),
        fromBE32_toBE32 hlen]
    rw [if_neg hc1, if_neg hc2]
    by_cases hcv : ChunkType.check_valid ((pre ++ (b ^^^ 2 ^ j) :: suf).take 4) = true
    · rw [if_pos hcv]
      have hctok' : ChunkType.try_from ((pre ++ (b ^^^ 2 ^ j) :: suf).take 4) =
          Except.ok ⟨(pre ++ (b ^^^ 2 ^ j) :: suf).take 4⟩ := by
        unfold ChunkType.try_from
        rw [if_pos hcv]
      have hnecs : Chunk.checksum (pre ++ (b ^^^ 2 ^ j) :: suf) ≠
          Chunk.crc (Chunk.new ct data) := by
        rw [show Chunk.crc (Chunk.new ct data) = Chunk.checksum (ct.chunk ++ data) from rfl,
          hsplit]
        exact checksum_ne_single_byte pre suf (b ^^^ 2 ^ j) b hpre hsuf hbflt hb hbne
      simp only [htakemid, hdropmid, hctok', List.take_left' hdroplen,
        List.drop_left' hdroplen,
        List.take_of_length_le (Nat.le_of_eq (toBE32_length _)),
        fromBE32_toBE32 hcrc_lt, List.take_append_drop]
      rw [if_pos (by simpa [bne_iff_ne] using hnecs)]
    · rw [if_neg hcv]
      have hcterr : ChunkType.try_from ((pre ++ (b ^^^ 2 ^ j) :: suf).take 4) =
          Except.error "incorrect chunk type" := by
        unfold ChunkType.try_from
        rw [if_neg hcv]
      simp only [htakemid, hdropmid, hcterr]
  refine ⟨hserial, hbne, ?_, ?_⟩
  · by_cases hcv : ChunkType.check_valid ((pre ++ (b ^^^ 2 ^ j) :: suf).take 4) = true
    · exact ⟨"error", by rw [hmod, key, if_pos hcv]⟩
    · exact ⟨"incorrect chunk type", by rw [hmod, key, if_neg hcv]⟩
  · intro hcv
    rw [hmod, key, if_pos hcv]

/-- C6, counterexample: flipping bit 6 of serialized byte 4 (the first
type byte, `82`) of the record `("RuSt", [7])` turns the type byte
into 18, which is not an ASCII letter, so parsing fails with
`"incorrect chunk type"` — not with the checksum-mismatch error the
claim requires. -/
theorem c6_bit_flip_counterexample :
    Chunk.as_bytes (Chunk.new ⟨rustTypeBytes⟩ [7]) =
      [0, 0, 0, 1, 82, 117, 83, 116, 7, 99, 221, 130, 160] ∧
    (82 : Nat) ^^^ 2 ^ 6 = 18 ∧
    Chunk.try_from [0, 0, 0, 1, 18, 117, 83, 116, 7, 99, 221, 130, 160] =
      Except.error "incorrect chunk type" := by
  refine ⟨?_, by decide, by rfl⟩
  simp [Chunk.as_bytes, Chunk.new, Chunk.length, Chunk.crc, Chunk.checksum, crcByte,
    crcSteps, crcStep, CRC32_POLY, List.foldl, ChunkType.bytes, rustTypeBytes, toBE32]

/-- C6, witness: flipping bit 0 of the payload byte of the record
`("RuSt", [7])`. -/
theorem c6_bit_flip_detected_witness :
    (ChunkType.mk rustTypeBytes).chunk.length = 4 ∧
    ChunkType.check_valid (ChunkType.mk rustTypeBytes).chunk = true ∧
    (∀ x ∈ [7], x < 256) ∧ ([7] : List Nat).length < 2 ^ 32 ∧
    (ChunkType.mk rustTypeBytes).chunk ++ [7] = [82, 117, 83, 116] ++ 7 :: [] ∧
    0 < 8 ∧
    (Chunk.as_bytes (Chunk.new ⟨rustTypeBytes⟩ [7]) =
      toBE32 (([7] : List Nat).length % 2 ^ 32) ++
        (([82, 117, 83, 116] ++ 7 :: []) ++
          toBE32 (Chunk.crc (Chunk.new ⟨rustTypeBytes⟩ [7]))) ∧
    (7 : Nat) ^^^ 2 ^ 0 ≠ 7 ∧
    (∃ e, Chunk.try_from (toBE32 (([7] : List Nat).length % 2 ^ 32) ++
        (([82, 117, 83, 116] ++ ((7 : Nat) ^^^ 2 ^ 0) :: []) ++
          toBE32 (Chunk.crc (Chunk.new ⟨rustTypeBytes⟩ [7])))) = Except.error e) ∧
    (ChunkType.check_valid (([82, 117, 83, 116] ++
          ((7 : Nat) ^^^ 2 ^ 0) :: []).take 4) = true →
      Chunk.try_from (toBE32 (([7] : List Nat).length % 2 ^ 32) ++
          (([82, 117, 83, 116] ++ ((7 : Nat) ^^^ 2 ^ 0) :: []) ++
            toBE32 (Chunk.crc (Chunk.new ⟨rustTypeBytes⟩ [7])))) =
        Except.error "error")) :=
  ⟨by decide, by decide, by decide, by decide, by decide, by decide,
    c6_bit_flip_detected ⟨rustTypeBytes⟩ [7] [82, 117, 83, 116] [] 7 0
      (by decide) (by decide) (by decide) (by decide) (by decide) (by decide)⟩
